import Mathlib

/-!
Verification of the dolt-knexjs-example walkthrough script (src/index.js).

The script is a linear sequence of knex query-builder calls against an
external Dolt SQL engine.  We embed the script's own logic (branch
creation with an existence check, the try/catch around transactions, the
fail-fast main sequence, upsert-based seeding, reset and log queries, the
connection configuration) as pure Lean functions, and model the external
engine's primitives from the spec's description where the engine's
behaviour decides a claim.
-/

namespace DoltKnex

/-! ## Branch creation (src/index.js `createBranch`, lines 102-113) -/

/-- State of the external engine relevant to branch creation: the set of
existing branch names, as returned by the `dolt_branches` system table. -/
structure BranchState where
  branches : List String
deriving DecidableEq, Repr

/-- The branch-listing query
`select name from dolt_branches where name = b` issued by `createBranch`. -/
def selectBranchesWhereName (s : BranchState) (b : String) : List String :=
  s.branches.filter (fun n => n = b)

/-- Modelled from the spec: the external `CALL DOLT_BRANCH(b)` command
creates branch `b`; since the spec says the command "may or may not be
idempotent", we model the adversarial case in which creating an existing
branch raises a duplicate-branch error. -/
def doltBranchCmd (s : BranchState) (b : String) : Except String BranchState :=
  if b ∈ s.branches then .error "duplicate branch" else .ok ⟨b :: s.branches⟩

/-- `createBranch` from src/index.js: run the branch-listing query for the
name; when it returns a row, only log "Branch exists"; otherwise issue
`CALL DOLT_BRANCH`.  The returned `Nat` counts how many create commands
were issued by this call (0 or 1). -/
def createBranch (s : BranchState) (b : String) : Except String (BranchState × Nat) :=
  let res := selectBranchesWhereName s b
  if res.length > 0 then
    .ok (s, 0)
  else
    match doltBranchCmd s b with
    | .ok s' => .ok (s', 1)
    | .error e => .error e

lemma selectBranchesWhereName_eq_nil (s : BranchState) (b : String)
    (h : b ∉ s.branches) : selectBranchesWhereName s b = [] := by
  simp only [selectBranchesWhereName, List.filter_eq_nil_iff]
  intro n hn
  simp only [decide_eq_true_eq]
  rintro rfl
  exact h hn

lemma selectBranchesWhereName_ne_nil (s : BranchState) (b : String)
    (h : b ∈ s.branches) : selectBranchesWhereName s b ≠ [] := by
  simp only [selectBranchesWhereName, ne_eq, List.filter_eq_nil_iff, not_forall]
  exact ⟨b, h, by simp⟩

/-- C1: `createBranch` first runs the branch-listing query and issues the
external create command only when that query returns no row; calling it
twice with the same initially-nonexistent name issues the create command
exactly once and raises no duplicate-branch error on the second call. -/
theorem createBranch_checks_then_creates (s : BranchState) (b : String) :
    (selectBranchesWhereName s b ≠ [] → createBranch s b = .ok (s, 0)) ∧
    (selectBranchesWhereName s b = [] →
      createBranch s b =
        match doltBranchCmd s b with
        | .ok s' => .ok (s', 1)
        | .error e => .error e) ∧
    (b ∉ s.branches → ∃ s₁,
      createBranch s b = .ok (s₁, 1) ∧ createBranch s₁ b = .ok (s₁, 0)) := by
  refine ⟨?_, ?_, ?_⟩
  · intro h
    unfold createBranch
    have hl : (selectBranchesWhereName s b).length > 0 :=
      List.length_pos.mpr h
    simp [hl]
  · intro h
    unfold createBranch
    simp [h]
  · intro h
    refine ⟨⟨b :: s.branches⟩, ?_, ?_⟩
    · have hq : selectBranchesWhereName s b = [] :=
        selectBranchesWhereName_eq_nil s b h
      unfold createBranch
      simp [hq, doltBranchCmd, h]
    · have hmem : b ∈ (BranchState.mk (b :: s.branches)).branches :=
        List.mem_cons_self b s.branches
      have hq : selectBranchesWhereName ⟨b :: s.branches⟩ b ≠ [] :=
        selectBranchesWhereName_ne_nil _ b hmem
      unfold createBranch
      have hl : (selectBranchesWhereName ⟨b :: s.branches⟩ b).length > 0 :=
        List.length_pos.mpr hq
      simp [hl]

/-- Witness for C1 at a concrete state: branch "modify_data" absent from
a repository whose only branch is "main". -/
theorem createBranch_checks_then_creates_witness :
    ("modify_data" ∉ (BranchState.mk ["main"]).branches) ∧
    (∃ s₁, createBranch ⟨["main"]⟩ "modify_data" = .ok (s₁, 1) ∧
      createBranch s₁ "modify_data" = .ok (s₁, 0)) :=
  ⟨by decide, (createBranch_checks_then_creates ⟨["main"]⟩ "modify_data").2.2 (by decide)⟩

/-! ## Relational data model (tables created by `setupDatabase`, lines 137-155) -/

/-- A row of the `employees` table.  `start_date` models the column added
by `modifySchema`'s ALTER TABLE; before that alteration it is `none` on
every row and `DataState.hasStartDateCol` is `false`. -/
structure Employee where
  id : Int
  last_name : String
  first_name : String
  start_date : Option String := none
deriving DecidableEq, Repr

/-- A row of the `teams` table. -/
structure Team where
  id : Int
  name : String
deriving DecidableEq, Repr

/-- A row of the `employees_teams` join table (composite primary key). -/
structure EmployeeTeam where
  employee_id : Int
  team_id : Int
deriving DecidableEq, Repr

/-- The working set of the three demo tables on the active branch. -/
structure DataState where
  employees : List Employee
  teams : List Team
  employees_teams : List EmployeeTeam
  hasStartDateCol : Bool := false
deriving DecidableEq, Repr

/-! ## SQL transactions and the try/catch wrappers
(src/index.js `modifyData` lines 282-309 and `modifySchema` lines 311-327) -/

/-- knex `db.transaction(work)`: runs the work against the current state;
on success the SQL transaction is committed and the new state kept, on a
failure inside the work the transaction is rolled back (all partial
changes discarded) and the error re-raised to the caller. -/
def transaction {σ ε : Type} (work : σ → Except ε σ) (s : σ) : Except ε σ :=
  match work s with
  | .ok s' => .ok s'
  | .error e => .error e

/-- The `try { await db.transaction(...) } catch (err) { console.error(err) }`
pattern shared by `modifyData` and `modifySchema`: any error raised inside
the work is caught and logged, never re-thrown, so the wrapper is a total
function returning the resulting state together with the list of logged
errors. -/
def tryTransactionLogged {σ ε : Type} (work : σ → Except ε σ) (s : σ) : σ × List ε :=
  match transaction work s with
  | .ok s' => (s', [])
  | .error e => (s, [e])

/-- A plain `insert` into `employees` (no ON CONFLICT clause): fails with
a duplicate-entry error when the primary key already exists. -/
def insertEmployee (tbl : List Employee) (e : Employee) : Except String (List Employee) :=
  if tbl.any (fun x => x.id = e.id) then .error "ER_DUP_ENTRY" else .ok (tbl ++ [e])

/-- A plain `insert` into `employees_teams` (composite key, no ON CONFLICT). -/
def insertEmployeeTeam (tbl : List EmployeeTeam) (r : EmployeeTeam) :
    Except String (List EmployeeTeam) :=
  if tbl.any (fun x => x.employee_id = r.employee_id ∧ x.team_id = r.team_id) then
    .error "ER_DUP_ENTRY"
  else .ok (tbl ++ [r])

/-- The delete statement of `modifyData` (src lines 300-303): knex chains
`.where("employee_id", 0).where("employee_id", 1)` with AND, so the de­lete
removes exactly the rows satisfying employee_id = 0 AND employee_id = 1. -/
def delWhereEmployee0And1 (rows : List EmployeeTeam) : List EmployeeTeam :=
  rows.filter (fun r => ¬ (r.employee_id = 0 ∧ r.employee_id = 1))

/-- The work callback of `modifyData` (src lines 284-304): rename Tim to
Timothy, insert employee 4, insert the (4, 0) team membership, then run
the contradictory delete. -/
def modifyDataWork (s : DataState) : Except String DataState := do
  let emps := s.employees.map
    (fun e => if e.first_name = "Tim" then { e with first_name := "Timothy" } else e)
  let emps ← insertEmployee emps { id := 4, last_name := "Bantle", first_name := "Taylor" }
  let ets ← insertEmployeeTeam s.employees_teams { employee_id := 4, team_id := 0 }
  let ets := delWhereEmployee0And1 ets
  .ok { s with employees := emps, employees_teams := ets }

/-- `update employees set start_date = d where id = k` (src lines 318-321). -/
def updateStartDate (tbl : List Employee) (k : Int) (d : String) : List Employee :=
  tbl.map (fun e => if e.id = k then { e with start_date := some d } else e)

/-- The work callback of `modifySchema` (src lines 313-322): add the
`start_date` column (duplicate-column error if it already exists), then
set start dates for employees 0-3. -/
def modifySchemaWork (s : DataState) : Except String DataState :=
  if s.hasStartDateCol then .error "ER_DUP_FIELDNAME"
  else
    let emps := updateStartDate s.employees 0 "2018-08-06"
    let emps := updateStartDate emps 1 "2018-08-06"
    let emps := updateStartDate emps 2 "2018-08-06"
    let emps := updateStartDate emps 3 "2021-04-19"
    .ok { s with hasStartDateCol := true, employees := emps }

/-- `modifyData` from src/index.js: the transactional work wrapped in
try/catch. -/
def modifyData (s : DataState) : DataState × List String :=
  tryTransactionLogged modifyDataWork s

/-- `modifySchema` from src/index.js: the transactional work wrapped in
try/catch. -/
def modifySchema (s : DataState) : DataState × List String :=
  tryTransactionLogged modifySchemaWork s

/-- C2: any error raised inside the callback passed to the transactional
wrapper is caught and logged, the transaction is rolled back (the state
reverts to the pre-transaction state), and the error is not re-thrown:
the wrapper is a total function into `σ × List ε`, so the operation
itself never raises; `modifyData` and `modifySchema` are instances of
this wrapper. -/
theorem tryTransaction_catches_and_rolls_back
    (work : DataState → Except String DataState) (s : DataState) :
    (∀ e, work s = .error e → tryTransactionLogged work s = (s, [e])) ∧
    (∀ s', work s = .ok s' → tryTransactionLogged work s = (s', [])) ∧
    modifyData s = tryTransactionLogged modifyDataWork s ∧
    modifySchema s = tryTransactionLogged modifySchemaWork s := by
  refine ⟨?_, ?_, rfl, rfl⟩
  · intro e h
    simp [tryTransactionLogged, transaction, h]
  · intro s' h
    simp [tryTransactionLogged, transaction, h]

/-- The empty working set, as right after `setupDatabase`. -/
def emptyDataState : DataState :=
  { employees := [], teams := [], employees_teams := [] }

/-- Witness for C2: a callback that fails is caught, logged and rolled
back at a concrete state. -/
theorem tryTransaction_catches_witness :
    tryTransactionLogged (fun _ => Except.error "boom") emptyDataState =
      (emptyDataState, ["boom"]) :=
  (tryTransaction_catches_and_rolls_back (fun _ => Except.error "boom") emptyDataState).1
    "boom" rfl

/-- C9: the filter of the delete statement requires employee_id = 0 and
employee_id = 1 simultaneously, which no row satisfies, so the delete
removes no rows for any database state and `employees_teams` is unchanged
by it. -/
theorem delWhereEmployee0And1_deletes_nothing (rows : List EmployeeTeam) :
    delWhereEmployee0And1 rows = rows := by
  unfold delWhereEmployee0And1
  refine List.filter_eq_self.mpr ?_
  intro r _
  simp only [decide_eq_true_eq, not_and]
  intro h0 h1
  rw [h0] at h1
  exact absurd h1 (by norm_num)

/-! ## Upsert seeding (src/index.js `insertData`, lines 184-213) -/

/-- Modelled from the spec: knex `.insert(row).onConflict().merge()`
issues `INSERT ... ON DUPLICATE KEY UPDATE`: the row is appended when its
primary key is absent, and on a key conflict every row carrying that key
is overwritten with the new values (same key, new non-key columns); the
insert is never rejected. -/
def upsertRow {κ ρ : Type} [DecidableEq κ] (key : ρ → κ) (tbl : List ρ) (r : ρ) : List ρ :=
  if tbl.any (fun x => key x = key r) then
    tbl.map (fun x => if key x = key r then r else x)
  else tbl ++ [r]

/-- Rows of a multi-row upsert are processed in order. -/
def upsertRows {κ ρ : Type} [DecidableEq κ] (key : ρ → κ) (tbl : List ρ)
    (rows : List ρ) : List ρ :=
  rows.foldl (fun t r => upsertRow key t r) tbl

/-- Primary-key lookup in a table. -/
def findByKey {κ ρ : Type} [DecidableEq κ] (key : ρ → κ) (k : κ) (tbl : List ρ) : Option ρ :=
  tbl.find? (fun x => key x = k)

/-- The employee rows of `insertData`. -/
def seedEmployees : List Employee :=
  [{ id := 0, last_name := "Sehn", first_name := "Tim" },
   { id := 1, last_name := "Hendriks", first_name := "Brian" },
   { id := 2, last_name := "Son", first_name := "Aaron" },
   { id := 3, last_name := "Fitzgerald", first_name := "Brian" }]

/-- The team rows of `insertData`. -/
def seedTeams : List Team :=
  [{ id := 0, name := "Engineering" },
   { id := 1, name := "Sales" }]

/-- The membership rows of `insertData`. -/
def seedEmployeesTeams : List EmployeeTeam :=
  [⟨0, 0⟩, ⟨1, 0⟩, ⟨2, 0⟩, ⟨0, 1⟩, ⟨3, 1⟩]

/-- `insertData` from src/index.js: upsert the seed rows into the three
tables, keyed by each table's primary key. -/
def insertData (s : DataState) : DataState :=
  { s with
    employees := upsertRows (fun e => e.id) s.employees seedEmployees,
    teams := upsertRows (fun t => t.id) s.teams seedTeams,
    employees_teams :=
      upsertRows (fun a => (a.employee_id, a.team_id)) s.employees_teams seedEmployeesTeams }

lemma find?_map_overwrite {κ ρ : Type} [DecidableEq κ] (key : ρ → κ) (r : ρ) :
    ∀ tbl : List ρ, tbl.any (fun x => key x = key r) = true →
      (tbl.map (fun x => if key x = key r then r else x)).find?
        (fun x => key x = key r) = some r
  | [], h => by simp at h
  | x :: xs, h => by
    by_cases hx : key x = key r
    · simp [hx]
    · have h' : xs.any (fun x => key x = key r) = true := by
        simp only [List.any_cons, Bool.or_eq_true, decide_eq_true_eq] at h
        rcases h with h | h
        · exact absurd h hx
        · exact h
      simp only [List.map_cons, if_neg hx]
      rw [List.find?_cons_of_neg _ (by simpa using hx)]
      exact find?_map_overwrite key r xs h'

/-- C5: the row-insertion operation has merge-on-conflict semantics: a
row whose primary key is absent is appended to the table, and on a
primary-key conflict the conflicting row is overwritten with the new
values (the lookup at that key afterwards returns the new row) instead of
the insert being rejected; `insertData` applies exactly this operation to
the three seeded tables. -/
theorem upsert_merge_on_conflict {κ ρ : Type} [DecidableEq κ]
    (key : ρ → κ) (tbl : List ρ) (r : ρ) :
    (findByKey key (key r) tbl = none → upsertRow key tbl r = tbl ++ [r]) ∧
    (∀ x, findByKey key (key r) tbl = some x →
      upsertRow key tbl r = tbl.map (fun y => if key y = key r then r else y) ∧
      findByKey key (key r) (upsertRow key tbl r) = some r) ∧
    (∀ s : DataState, insertData s =
      { s with
        employees := upsertRows (fun e => e.id) s.employees seedEmployees,
        teams := upsertRows (fun t => t.id) s.teams seedTeams,
        employees_teams :=
          upsertRows (fun a => (a.employee_id, a.team_id)) s.employees_teams
            seedEmployeesTeams }) := by
  refine ⟨?_, ?_, fun s => rfl⟩
  · intro h
    have hna : tbl.any (fun x => key x = key r) = false := by
      rw [List.any_eq_false]
      intro x hx
      have := List.find?_eq_none.mp h x hx
      simpa using this
    unfold upsertRow
    rw [hna]
    simp
  · intro x hx
    have hx' : List.find? (fun y => decide (key y = key r)) tbl = some x := hx
    have hpx := List.find?_some hx'
    have hmem : x ∈ tbl := List.mem_of_find?_eq_some hx'
    have ha : tbl.any (fun y => key y = key r) = true :=
      List.any_eq_true.mpr ⟨x, hmem, hpx⟩
    have hmap : upsertRow key tbl r = tbl.map (fun y => if key y = key r then r else y) := by
      unfold upsertRow
      rw [ha]
      simp
    refine ⟨hmap, ?_⟩
    rw [hmap]
    exact find?_map_overwrite key r tbl ha

/-- Witness for C5 at a concrete input: upserting the first seed employee
into an empty table appends it. -/
theorem upsert_merge_on_conflict_witness :
    upsertRow (fun e : Employee => e.id) []
        { id := 0, last_name := "Sehn", first_name := "Tim" } =
      [] ++ [{ id := 0, last_name := "Sehn", first_name := "Tim" }] :=
  (upsert_merge_on_conflict (fun e : Employee => e.id) []
    { id := 0, last_name := "Sehn", first_name := "Tim" }).1 rfl

/-! ## Commit log (src/index.js `printCommitLog`, lines 173-182) -/

/-- A row of the `dolt_log` system table; `date` is the commit timestamp. -/
structure LogEntry where
  commit_hash : String
  committer : String
  message : String
  date : Nat
deriving DecidableEq, Repr

/-- Insert a log entry into a list already sorted by date descending. -/
def logInsertDesc (e : LogEntry) : List LogEntry → List LogEntry
  | [] => [e]
  | x :: xs => if x.date ≤ e.date then e :: x :: xs else x :: logInsertDesc e xs

/-- `order by date desc` over the `dolt_log` rows. -/
def orderByDateDesc : List LogEntry → List LogEntry
  | [] => []
  | x :: xs => logInsertDesc x (orderByDateDesc xs)

/-- The projection `select commit_hash, committer, message`. -/
def logProjection (e : LogEntry) : String × String × String :=
  (e.commit_hash, e.committer, e.message)

/-- `printCommitLog` from src/index.js:
`select commit_hash, committer, message from dolt_log order by date desc`.
It takes no limit argument: every row of the log is returned. -/
def printCommitLog (log : List LogEntry) : List (String × String × String) :=
  (orderByDateDesc log).map logProjection

lemma mem_logInsertDesc (y e : LogEntry) :
    ∀ l : List LogEntry, y ∈ logInsertDesc e l ↔ y = e ∨ y ∈ l
  | [] => by simp [logInsertDesc]
  | x :: xs => by
    unfold logInsertDesc
    by_cases h : x.date ≤ e.date
    · rw [if_pos h]
      simp
    · rw [if_neg h]
      simp only [List.mem_cons, mem_logInsertDesc y e xs]
      tauto

lemma pairwise_logInsertDesc (e : LogEntry) :
    ∀ l : List LogEntry, List.Pairwise (fun a b => b.date ≤ a.date) l →
      List.Pairwise (fun a b => b.date ≤ a.date) (logInsertDesc e l)
  | [], _ => by simp [logInsertDesc]
  | x :: xs, h => by
    unfold logInsertDesc
    rcases List.pairwise_cons.mp h with ⟨hx, hxs⟩
    by_cases hd : x.date ≤ e.date
    · rw [if_pos hd]
      refine List.pairwise_cons.mpr ⟨?_, h⟩
      intro y hy
      rcases List.mem_cons.mp hy with rfl | hy'
      · exact hd
      · exact le_trans (hx y hy') hd
    · rw [if_neg hd]
      refine List.pairwise_cons.mpr ⟨?_, pairwise_logInsertDesc e xs hxs⟩
      intro y hy
      rcases (mem_logInsertDesc y e xs).mp hy with rfl | hy'
      · omega
      · exact hx y hy'

lemma perm_logInsertDesc (e : LogEntry) :
    ∀ l : List LogEntry, (logInsertDesc e l).Perm (e :: l)
  | [] => by simp [logInsertDesc]
  | x :: xs => by
    unfold logInsertDesc
    by_cases hd : x.date ≤ e.date
    · rw [if_pos hd]
    · rw [if_neg hd]
      exact ((perm_logInsertDesc e xs).cons x).trans (List.Perm.swap e x xs)

lemma pairwise_orderByDateDesc :
    ∀ l : List LogEntry, List.Pairwise (fun a b => b.date ≤ a.date) (orderByDateDesc l)
  | [] => by simp [orderByDateDesc]
  | x :: xs => pairwise_logInsertDesc x (orderByDateDesc xs) (pairwise_orderByDateDesc xs)

lemma perm_orderByDateDesc : ∀ l : List LogEntry, (orderByDateDesc l).Perm l
  | [] => List.Perm.refl _
  | x :: xs =>
    (perm_logInsertDesc x (orderByDateDesc xs)).trans ((perm_orderByDateDesc xs).cons x)

/-- C7 (amended): the commit-log operation returns the commit records
ordered most recent first — the rows are sorted descending by timestamp
and are a permutation of the log — and it has no limit parameter: the
output always contains one record per log row. -/
theorem printCommitLog_sorted_desc_all (log : List LogEntry) :
    List.Pairwise (fun a b => b.date ≤ a.date) (orderByDateDesc log) ∧
    (orderByDateDesc log).Perm log ∧
    printCommitLog log = (orderByDateDesc log).map logProjection ∧
    (printCommitLog log).length = log.length := by
  refine ⟨pairwise_orderByDateDesc log, perm_orderByDateDesc log, rfl, ?_⟩
  unfold printCommitLog
  rw [List.length_map]
  exact (perm_orderByDateDesc log).length_eq

/-- Definition following the spec's words, for comparison with
`printCommitLog`: `commitLog(limit)` returns the most-recent-first
records, truncated to `limit` entries when a limit is given. -/
def commitLogSpec (limit : Option Nat) (log : List LogEntry) :
    List (String × String × String) :=
  let recs := (orderByDateDesc log).map logProjection
  match limit with
  | some n => recs.take n
  | none => recs

/-- A two-commit log used to exercise the limit behaviour. -/
def twoCommitLog : List LogEntry :=
  [{ commit_hash := "aaaa", committer := "taylor", message := "first", date := 1 },
   { commit_hash := "bbbb", committer := "tim", message := "second", date := 2 }]

/-- Counterexample for C7: the source's commit-log operation supports no
limit — on a two-commit log it returns both records, so it differs from
the spec's limit-1 result. -/
theorem printCommitLog_no_limit_cex :
    printCommitLog twoCommitLog ≠ commitLogSpec (some 1) twoCommitLog ∧
    (printCommitLog twoCommitLog).length = 2 ∧
    (commitLogSpec (some 1) twoCommitLog).length = 1 := by
  decide

/-! ## Dolt commit (src/index.js `doltCommit`, lines 165-171) -/

/-- Version-control state seen by the commit command: the working set,
the head commit's hash and snapshot, and a counter minting fresh hashes. -/
structure CommitState (σ : Type) where
  working : σ
  headHash : String
  headSnapshot : σ
  counter : Nat
  history : List (String × String × String)

/-- Modelled from the spec: `CALL DOLT_COMMIT('--author', a, '-Am', m)`
stages all working-set changes and commits them, returning the new commit
hash; when there is nothing to commit (working set identical to the last
commit) the engine no-ops and returns the prior commit's hash. -/
def doltCommitCmd {σ : Type} [DecidableEq σ] (st : CommitState σ) (author msg : String) :
    CommitState σ × String :=
  if st.working = st.headSnapshot then (st, st.headHash)
  else
    let h := "commit" ++ toString (st.counter + 1)
    ({ st with
        headHash := h
        headSnapshot := st.working
        counter := st.counter + 1
        history := (h, author, msg) :: st.history }, h)

/-- `doltCommit` from src/index.js: issue the commit command with the
given author and message and report the hash it returns
(`res[0][0].hash`). -/
def doltCommit {σ : Type} [DecidableEq σ] (st : CommitState σ) (author msg : String) :
    CommitState σ × String :=
  doltCommitCmd st author msg

/-- C4: calling the commit operation twice in a row with no intervening
writes yields the same commit hash both times — after the first call the
working set is identical to the last commit, so the second call returns
the prior commit's hash rather than a new one. -/
theorem doltCommit_idempotent_hash {σ : Type} [DecidableEq σ]
    (st : CommitState σ) (a₁ m₁ a₂ m₂ : String) :
    (doltCommit (doltCommit st a₁ m₁).1 a₂ m₂).2 = (doltCommit st a₁ m₁).2 := by
  unfold doltCommit doltCommitCmd
  by_cases h : st.working = st.headSnapshot
  · simp [h]
  · simp [h]

/-! ## Hard reset (src/index.js `doltResetHard`, lines 272-280) and
database reset (src/index.js `resetDatabase`, lines 125-135) -/

/-- The engine commands issued by the reset operations. -/
inductive DoltCmd where
  | resetHardCmd (ref : Option String)
  | branchDeleteCmd (name : String)
deriving DecidableEq, Repr

/-- Engine state seen by the reset operations: working set and head
snapshot of the active branch, the commit map, the `dolt_log` rows, the
branch list, and the name of the currently checked-out branch. -/
structure ResetState (σ : Type) where
  working : σ
  headSnapshot : σ
  commits : List (String × σ)
  log : List LogEntry
  branches : List String
  activeBranch : String
deriving DecidableEq, Repr

/-- Modelled from the spec: `CALL DOLT_RESET('--hard' [, ref])` discards
uncommitted changes; with a commit reference the working set (and head)
move to that commit's snapshot, without one the working set resets to the
branch head.  An unknown reference is an error. -/
def doltResetCmd {σ : Type} (st : ResetState σ) : Option String → Except String (ResetState σ)
  | none => .ok { st with working := st.headSnapshot }
  | some r =>
    match st.commits.lookup r with
    | some snap => .ok { st with working := snap, headSnapshot := snap }
    | none => .error "invalid hard reset ref"

/-- `doltResetHard` from src/index.js: when a commit is supplied it
issues `CALL DOLT_RESET('--hard', commit)`, otherwise it issues
`CALL DOLT_RESET('--hard')`.  The issued command is returned alongside
the engine's result. -/
def doltResetHard {σ : Type} (st : ResetState σ) (commit : Option String) :
    Except String (ResetState σ) × DoltCmd :=
  match commit with
  | some c => (doltResetCmd st (some c), .resetHardCmd (some c))
  | none => (doltResetCmd st none, .resetHardCmd none)

/-- The `dolt_status` query (src lines 247-257): an empty list when the
working set matches the head commit, a nonempty marker otherwise. -/
def statusEntries {σ : Type} [DecidableEq σ] (st : ResetState σ) : List String :=
  if st.working = st.headSnapshot then [] else ["modified"]

/-- C6: the hard-reset operation discards uncommitted changes: with a
commit reference it issues the hard-reset command carrying that reference
and the working set becomes that commit's snapshot; with the reference
omitted it issues the command with no reference and the working set
resets to the branch head; in both cases the status afterwards is empty. -/
theorem doltResetHard_spec {σ : Type} [DecidableEq σ]
    (st : ResetState σ) (c : String) (snap : σ)
    (h : st.commits.lookup c = some snap) :
    (doltResetHard st (some c)).2 = DoltCmd.resetHardCmd (some c) ∧
    (doltResetHard st none).2 = DoltCmd.resetHardCmd none ∧
    (doltResetHard st (some c)).1 = .ok { st with working := snap, headSnapshot := snap } ∧
    (doltResetHard st none).1 = .ok { st with working := st.headSnapshot } ∧
    statusEntries { st with working := snap, headSnapshot := snap } = [] ∧
    statusEntries { st with working := st.headSnapshot } = [] := by
  refine ⟨rfl, rfl, ?_, rfl, ?_, ?_⟩
  · simp [doltResetHard, doltResetCmd, h]
  · simp [statusEntries]
  · simp [statusEntries]

/-- Witness for C6 at a concrete state over `σ := Nat`. -/
theorem doltResetHard_spec_witness :
    ((ResetState.mk (7 : Nat) 5 [("abcd", 3)] [] ["main"] "main").commits.lookup "abcd"
        = some 3) ∧
    ((doltResetHard (ResetState.mk (7 : Nat) 5 [("abcd", 3)] [] ["main"] "main") (some "abcd")).1
        = .ok (ResetState.mk (3 : Nat) 3 [("abcd", 3)] [] ["main"] "main")) :=
  ⟨rfl, (doltResetHard_spec (ResetState.mk (7 : Nat) 5 [("abcd", 3)] [] ["main"] "main")
    "abcd" 3 rfl).2.2.1⟩

/-- Insert a log entry into a list already sorted by date ascending. -/
def logInsertAsc (e : LogEntry) : List LogEntry → List LogEntry
  | [] => [e]
  | x :: xs => if e.date ≤ x.date then e :: x :: xs else x :: logInsertAsc e xs

/-- `order by date asc` over the `dolt_log` rows. -/
def orderByDateAsc : List LogEntry → List LogEntry
  | [] => []
  | x :: xs => logInsertAsc x (orderByDateAsc xs)

/-- Modelled from the spec: `CALL DOLT_BRANCH('-D', b)` removes branch
`b`; it fails when the branch is currently checked out or when it does
not exist. -/
def doltBranchDeleteCmd {σ : Type} (st : ResetState σ) (b : String) :
    Except String (ResetState σ) :=
  if b = st.activeBranch then .error "cannot delete checked-out branch"
  else if b ∈ st.branches then .ok { st with branches := st.branches.erase b }
  else .error "branch not found"

/-- `resetDatabase` from src/index.js: query the oldest commit
(`select commit_hash from dolt_log order by date asc limit 1`), hard-reset
to it, then delete the branches modify_data and modify_schema.  Returns
the final state and the engine commands issued. -/
def resetDatabase {σ : Type} (st : ResetState σ) :
    Except String (ResetState σ × List DoltCmd) :=
  match (orderByDateAsc st.log).take 1 with
  | [] => .error "TypeError: cannot read commit_hash of undefined"
  | oldest :: _ =>
    let rc := doltResetHard st (some oldest.commit_hash)
    match rc.1 with
    | .error e => .error e
    | .ok st₁ =>
      match doltBranchDeleteCmd st₁ "modify_data" with
      | .error e => .error e
      | .ok st₂ =>
        match doltBranchDeleteCmd st₂ "modify_schema" with
        | .error e => .error e
        | .ok st₃ =>
          .ok (st₃, [rc.2, .branchDeleteCmd "modify_data", .branchDeleteCmd "modify_schema"])

lemma mem_logInsertAsc (y e : LogEntry) :
    ∀ l : List LogEntry, y ∈ logInsertAsc e l ↔ y = e ∨ y ∈ l
  | [] => by simp [logInsertAsc]
  | x :: xs => by
    unfold logInsertAsc
    by_cases h : e.date ≤ x.date
    · rw [if_pos h]
      simp
    · rw [if_neg h]
      simp only [List.mem_cons, mem_logInsertAsc y e xs]
      tauto

lemma pairwise_logInsertAsc (e : LogEntry) :
    ∀ l : List LogEntry, List.Pairwise (fun a b => a.date ≤ b.date) l →
      List.Pairwise (fun a b => a.date ≤ b.date) (logInsertAsc e l)
  | [], _ => by simp [logInsertAsc]
  | x :: xs, h => by
    unfold logInsertAsc
    rcases List.pairwise_cons.mp h with ⟨hx, hxs⟩
    by_cases hd : e.date ≤ x.date
    · rw [if_pos hd]
      refine List.pairwise_cons.mpr ⟨?_, h⟩
      intro y hy
      rcases List.mem_cons.mp hy with rfl | hy'
      · exact hd
      · exact le_trans hd (hx y hy')
    · rw [if_neg hd]
      refine List.pairwise_cons.mpr ⟨?_, pairwise_logInsertAsc e xs hxs⟩
      intro y hy
      rcases (mem_logInsertAsc y e xs).mp hy with rfl | hy'
      · omega
      · exact hx y hy'

lemma pairwise_orderByDateAsc :
    ∀ l : List LogEntry, List.Pairwise (fun a b => a.date ≤ b.date) (orderByDateAsc l)
  | [] => by simp [orderByDateAsc]
  | x :: xs => pairwise_logInsertAsc x (orderByDateAsc xs) (pairwise_orderByDateAsc xs)

lemma perm_logInsertAsc (e : LogEntry) :
    ∀ l : List LogEntry, (logInsertAsc e l).Perm (e :: l)
  | [] => by simp [logInsertAsc]
  | x :: xs => by
    unfold logInsertAsc
    by_cases hd : e.date ≤ x.date
    · rw [if_pos hd]
    · rw [if_neg hd]
      exact ((perm_logInsertAsc e xs).cons x).trans (List.Perm.swap e x xs)

lemma perm_orderByDateAsc : ∀ l : List LogEntry, (orderByDateAsc l).Perm l
  | [] => List.Perm.refl _
  | x :: xs =>
    (perm_logInsertAsc x (orderByDateAsc xs)).trans ((perm_orderByDateAsc xs).cons x)

/-- C10: `resetDatabase` hard-resets the working set to the oldest commit
in the log — the first entry after ordering ascending by date, whose date
is minimal among all log entries — and then deletes the branches
modify_data and modify_schema, issuing exactly those three commands.
The two branches must exist and neither may be the checked-out branch
(in `main`, `checkoutBranch("main")` runs immediately before
`resetDatabase`, so the active branch is main). -/
theorem resetDatabase_resets_to_oldest {σ : Type}
    (st : ResetState σ) (oldest : LogEntry) (rest : List LogEntry) (snap : σ)
    (hord : orderByDateAsc st.log = oldest :: rest)
    (hlookup : st.commits.lookup oldest.commit_hash = some snap)
    (hmd : "modify_data" ∈ st.branches)
    (hms : "modify_schema" ∈ st.branches)
    (hamd : st.activeBranch ≠ "modify_data")
    (hams : st.activeBranch ≠ "modify_schema") :
    (∃ stf, resetDatabase st = .ok (stf,
        [DoltCmd.resetHardCmd (some oldest.commit_hash),
         DoltCmd.branchDeleteCmd "modify_data",
         DoltCmd.branchDeleteCmd "modify_schema"]) ∧
      stf.working = snap ∧ stf.headSnapshot = snap ∧
      stf.branches = (st.branches.erase "modify_data").erase "modify_schema") ∧
    (∀ x ∈ st.log, oldest.date ≤ x.date) := by
  constructor
  · have hms' : "modify_schema" ∈ st.branches.erase "modify_data" :=
      List.mem_erase_of_ne (by decide) |>.mpr hms
    refine ⟨{ st with
        working := snap
        headSnapshot := snap
        branches := (st.branches.erase "modify_data").erase "modify_schema" },
      ?_, rfl, rfl, rfl⟩
    simp only [resetDatabase, hord, List.take_succ_cons, List.take_zero]
    simp [doltResetHard, doltResetCmd, hlookup, doltBranchDeleteCmd, hmd, hms',
      Ne.symm hamd, Ne.symm hams]
  · intro x hx
    have hp := pairwise_orderByDateAsc st.log
    rw [hord] at hp
    rcases List.pairwise_cons.mp hp with ⟨hmin, _⟩
    have hperm := perm_orderByDateAsc st.log
    rw [hord] at hperm
    have hx' : x ∈ oldest :: rest := hperm.mem_iff.mpr hx
    rcases List.mem_cons.mp hx' with rfl | hx''
    · exact le_refl _
    · exact hmin x hx''

/-- Witness for C10 at a concrete repository over `σ := Nat`: a two-entry
log whose older commit is "aaaa". -/
theorem resetDatabase_resets_to_oldest_witness :
    (orderByDateAsc (ResetState.mk (9 : Nat) 9 [("aaaa", 0)]
        [⟨"bbbb", "x", "second", 2⟩, ⟨"aaaa", "y", "first", 1⟩]
        ["main", "modify_data", "modify_schema"] "main").log
      = [⟨"aaaa", "y", "first", 1⟩, ⟨"bbbb", "x", "second", 2⟩]) ∧
    ((∃ stf, resetDatabase (ResetState.mk (9 : Nat) 9 [("aaaa", 0)]
        [⟨"bbbb", "x", "second", 2⟩, ⟨"aaaa", "y", "first", 1⟩]
        ["main", "modify_data", "modify_schema"] "main") = .ok (stf,
          [DoltCmd.resetHardCmd (some "aaaa"),
           DoltCmd.branchDeleteCmd "modify_data",
           DoltCmd.branchDeleteCmd "modify_schema"]) ∧
        stf.working = 0 ∧ stf.headSnapshot = 0 ∧
        stf.branches = ((["main", "modify_data", "modify_schema"].erase
          "modify_data").erase "modify_schema")) ∧
      (∀ x ∈ (ResetState.mk (9 : Nat) 9 [("aaaa", 0)]
          [⟨"bbbb", "x", "second", 2⟩, ⟨"aaaa", "y", "first", 1⟩]
          ["main", "modify_data", "modify_schema"] "main").log,
        (⟨"aaaa", "y", "first", 1⟩ : LogEntry).date ≤ x.date)) :=
  ⟨by decide,
   resetDatabase_resets_to_oldest _ ⟨"aaaa", "y", "first", 1⟩
     [⟨"bbbb", "x", "second", 2⟩] 0 (by decide) (by decide) (by decide) (by decide)
     (by decide) (by decide)⟩

/-! ## The demonstration sequence (src/index.js `main`, lines 23-100)

`main` is a chain of awaited calls with no try/catch of its own, so a
rejection at any step propagates and none of the later awaits run.  We
embed the sequence as a step list executed against an abstract engine
interpreter: each step either transforms the state or raises. -/

/-- One awaited call of `main`, with the arguments it is given there. -/
inductive Step where
  | checkoutBranchStep (b : String)
  | printActiveBranchStep
  | resetDatabaseStep
  | setupDatabaseStep
  | printTablesStep
  | doltCommitStep (author msg : String)
  | printCommitLogStep
  | insertDataStep
  | printSummaryTableStep
  | printStatusStep
  | printDiffStep (t : String)
  | dropTableStep (t : String)
  | doltResetHardStep
  | createBranchStep (b : String)
  | modifyDataStep
  | modifySchemaStep
  | doltMergeStep (b : String)
  | destroyStep
deriving DecidableEq, Repr

/-- The awaited calls of `main` (src lines 24-97), in source order. -/
def mainSteps : List Step :=
  [.checkoutBranchStep "main",
   .printActiveBranchStep,
   .resetDatabaseStep,
   .setupDatabaseStep,
   .printTablesStep,
   .doltCommitStep "Taylor <taylor@dolthub.com>" "Created tables",
   .printCommitLogStep,
   .insertDataStep,
   .printSummaryTableStep,
   .printStatusStep,
   .printDiffStep "employees",
   .doltCommitStep "Tim <tim@dolthub.com>" "Inserted data into tables",
   .printCommitLogStep,
   .dropTableStep "employees_teams",
   .printStatusStep,
   .printTablesStep,
   .doltResetHardStep,
   .printStatusStep,
   .printTablesStep,
   .createBranchStep "modify_data",
   .checkoutBranchStep "modify_data",
   .printActiveBranchStep,
   .modifyDataStep,
   .printStatusStep,
   .printDiffStep "employees",
   .printDiffStep "employees_teams",
   .printSummaryTableStep,
   .doltCommitStep "Brian <brian@dolthub.com>" "Modified data on branch",
   .printCommitLogStep,
   .checkoutBranchStep "main",
   .createBranchStep "modify_schema",
   .checkoutBranchStep "modify_schema",
   .printActiveBranchStep,
   .modifySchemaStep,
   .printStatusStep,
   .printDiffStep "employees",
   .printSummaryTableStep,
   .doltCommitStep "Taylor <taylor@dolthub.com>" "Modified schema on branch",
   .printCommitLogStep,
   .checkoutBranchStep "main",
   .printActiveBranchStep,
   .printCommitLogStep,
   .printSummaryTableStep,
   .doltMergeStep "modify_data",
   .printSummaryTableStep,
   .printCommitLogStep,
   .doltMergeStep "modify_schema",
   .printSummaryTableStep,
   .printCommitLogStep,
   .destroyStep]

/-- Sequential await of a list of steps: each step runs only when every
earlier step succeeded; the second component records the steps that were
actually executed, in order. -/
def runSeq {σ ε : Type} (exec : Step → σ → Except ε σ) :
    List Step → σ → Except ε σ × List Step
  | [], s => (.ok s, [])
  | st :: rest, s =>
    match exec st s with
    | .error e => (.error e, [st])
    | .ok s' =>
      let r := runSeq exec rest s'
      (r.1, st :: r.2)

/-- `main` from src/index.js: run the demonstration steps in order. -/
def runMain {σ ε : Type} (exec : Step → σ → Except ε σ) (s : σ) :
    Except ε σ × List Step :=
  runSeq exec mainSteps s

lemma runSeq_error_trace {σ ε : Type} (exec : Step → σ → Except ε σ) :
    ∀ (l : List Step) (s : σ) (e : ε), (runSeq exec l s).1 = .error e →
      ∃ k, ∃ hk : k < l.length, ∃ s',
        (runSeq exec l s).2 = l.take (k + 1) ∧ exec (l.get ⟨k, hk⟩) s' = .error e := by
  intro l
  induction l with
  | nil =>
    intro s e h
    simp [runSeq] at h
  | cons st rest ih =>
    intro s e h
    cases hex : exec st s with
    | error e' =>
      have hrun : runSeq exec (st :: rest) s = (.error e', [st]) := by
        simp [runSeq, hex]
      rw [hrun] at h
      have he : e' = e := by simpa using h
      subst he
      refine ⟨0, Nat.succ_pos _, s, ?_, ?_⟩
      · rw [hrun]
        simp
      · simpa using hex
    | ok s1 =>
      have hrun : runSeq exec (st :: rest) s =
          ((runSeq exec rest s1).1, st :: (runSeq exec rest s1).2) := by
        simp [runSeq, hex]
      rw [hrun] at h
      obtain ⟨k, hk, s', htr, hex'⟩ := ih s1 e h
      refine ⟨k + 1, Nat.succ_lt_succ hk, s', ?_, ?_⟩
      · rw [hrun]
        simp [htr]
      · exact hex'

/-- C3: the demonstration sequence is fail-fast — whenever the run of
`main`'s step sequence ends in an error, the executed steps are exactly
the first k+1 entries of `mainSteps` for some k: step k raised the error
and none of the subsequent steps executed. -/
theorem main_fail_fast {σ ε : Type} (exec : Step → σ → Except ε σ) (s : σ) (e : ε)
    (h : (runMain exec s).1 = .error e) :
    ∃ k, ∃ hk : k < mainSteps.length, ∃ s',
      (runMain exec s).2 = mainSteps.take (k + 1) ∧
      exec (mainSteps.get ⟨k, hk⟩) s' = .error e :=
  runSeq_error_trace exec mainSteps s e h

/-- An interpreter whose `resetDatabase` step fails; every other step
succeeds. -/
def failingExec : Step → Unit → Except String Unit :=
  fun st _ =>
    match st with
    | .resetDatabaseStep => .error "reset failed"
    | _ => .ok ()

/-- Witness for C3: under `failingExec` the run stops at the third step. -/
theorem main_fail_fast_witness :
    ((runMain failingExec ()).1 = Except.error "reset failed") ∧
    (∃ k, ∃ hk : k < mainSteps.length, ∃ s',
      (runMain failingExec ()).2 = mainSteps.take (k + 1) ∧
      failingExec (mainSteps.get ⟨k, hk⟩) s' = Except.error "reset failed") :=
  ⟨rfl, main_fail_fast failingExec () "reset failed" rfl⟩

/-! ## Connection configuration (src/index.js, lines 7-21) -/

/-- The TLS trust configurations named by the spec. -/
inductive TlsMode where
  | disabled
  | caFile (path : String)
  | platformDefault
deriving DecidableEq, Repr

/-- The environment variables read by the script. -/
structure Env where
  dbHost : Option String
  dbPort : Option String
  dbUser : Option String
  dbPassword : Option String
  dbName : Option String
  dbSslPath : Option String
deriving DecidableEq, Repr

/-- The `ssl` option of the knex connection (src lines 16-18):
`process.env.DB_SSL_PATH ? { ca: fs.readFileSync(...) } : false`.
An unset variable — or the empty string, which is falsy in JavaScript —
selects `false` (TLS disabled); otherwise the CA certificate at the given
path is trusted. -/
def sslConfig (v : Option String) : TlsMode :=
  match v with
  | none => .disabled
  | some p => if p = "" then .disabled else .caFile p

/-- The parts of the knex configuration object relevant to the claim. -/
structure KnexConfig where
  client : String
  ssl : TlsMode
  poolMin : Nat
  poolMax : Nat
deriving DecidableEq, Repr

/-- The module-level `db` configuration from src/index.js: mysql2 client,
ssl from `DB_SSL_PATH`, pool `{ min: 0, max: 7 }`. -/
def dbConfig (env : Env) : KnexConfig :=
  { client := "mysql2"
    ssl := sslConfig env.dbSslPath
    poolMin := 0
    poolMax := 7 }

/-- Counterexample for C8: no environment makes the connect configuration
use platform-default TLS verification — the source offers only the
disabled and CA-file modes. -/
theorem dbConfig_no_platformDefault_cex :
    ¬ ∃ env : Env, (dbConfig env).ssl = TlsMode.platformDefault := by
  rintro ⟨env, h⟩
  simp only [dbConfig, sslConfig] at h
  cases hv : env.dbSslPath with
  | none => rw [hv] at h; exact TlsMode.noConfusion h
  | some p =>
    rw [hv] at h
    by_cases hp : p = "" <;> simp [hp] at h

/-- C8 (amended): the connect operation supports two TLS trust
configurations — disabled (no CA path set, or an empty one) or a CA
certificate file path — and opens the pooled connection (mysql2 client,
pool 0 to 7) with the selected mode; platform-default verification is not
offered. -/
theorem dbConfig_two_tls_modes (env : Env) :
    (env.dbSslPath = none → (dbConfig env).ssl = TlsMode.disabled) ∧
    (env.dbSslPath = some "" → (dbConfig env).ssl = TlsMode.disabled) ∧
    (∀ p, env.dbSslPath = some p → p ≠ "" → (dbConfig env).ssl = TlsMode.caFile p) ∧
    (dbConfig env).client = "mysql2" ∧
    (dbConfig env).poolMin = 0 ∧ (dbConfig env).poolMax = 7 := by
  refine ⟨?_, ?_, ?_, rfl, rfl, rfl⟩
  · intro h
    simp [dbConfig, sslConfig, h]
  · intro h
    simp [dbConfig, sslConfig, h]
  · intro p hp hne
    simp [dbConfig, sslConfig, hp, hne]

/-- Witness for C8 at a concrete environment carrying a CA path. -/
theorem dbConfig_two_tls_modes_witness :
    (dbConfig (Env.mk none none none none none (some "/cert.pem"))).ssl =
      TlsMode.caFile "/cert.pem" :=
  (dbConfig_two_tls_modes (Env.mk none none none none none (some "/cert.pem"))).2.2.1
    "/cert.pem" rfl (by decide)

end DoltKnex
